import Mathlib

/-!
Verification development for the RelayDNS forwarding DNS proxy
(src/Server.cpp, src/Server.h, src/Packet.cpp, src/Request.h, src/main.cpp).

The C++ sources are shallowly embedded as executable Lean definitions:
raw datagrams are byte lists (`List Nat`, each entry a byte value), the
outbox array is modelled as an association list from proxy ids to pending
`Request`s (a slot is either empty or owns one request), and machine
integers are `Nat`/`Int` with explicit `% 2^w` where hardware overflow
matters.  The file header `Packet.h` is not part of the available sources;
the few facts that depend on it (the DNS header bit layout used by
`DNSPacket::Decode`) are modelled from the specification and marked as such.
-/

namespace RelayDNS

/-- Server configuration constants, from src/Server.h lines 30-35. -/
def SERVER_BUFFER_SIZE : Nat := 4096

/-- Maximum accepted packet size, src/Server.h line 31. -/
def SERVER_MAX_PACKET_SIZE : Nat := 512

/-- Request timeout in milliseconds, src/Server.h line 32. -/
def SERVER_TIMEOUT_MS : Int := 2000

/-- Sweep interval in milliseconds, src/Server.h line 33. -/
def SERVER_TIMEOUT_SCAN_MS : Nat := 1000

/-- Value of the C constant `USHRT_MAX` (maximum of `unsigned short`). -/
def USHRT_MAX : Nat := 65535

/-- Number of slots of `Server::mOutboxArray`
(`array<unique_ptr<Request>, USHRT_MAX>`, src/Server.h line 124). -/
def outboxArraySize : Nat := USHRT_MAX

/-- Valid indices for a C++ `std::array` of `outboxArraySize` elements. -/
def outboxIndexInBounds (id : Nat) : Prop := id < outboxArraySize

instance (id : Nat) : Decidable (outboxIndexInBounds id) := by
  unfold outboxIndexInBounds; infer_instance

/-- DNSPacket::GetRawPacketID (src/Packet.cpp lines 373-386): read the first
two bytes of the raw datagram as a big-endian 16-bit transaction id
(`memcpy` of two bytes followed by `ntohs`). -/
def getRawPacketID (raw : List Nat) : Nat :=
  raw.getD 0 0 * 256 + raw.getD 1 0

/-- DNSPacket::SetRawPacketID (src/Packet.cpp lines 347-359): overwrite the
first two bytes of the raw datagram with the 16-bit id in network byte order
(`htons` followed by a two-byte `memcpy`); every other byte is untouched. -/
def setRawPacketID (id : Nat) (raw : List Nat) : List Nat :=
  (id / 256) % 256 :: id % 256 :: raw.drop 2

/-- Server::GenerateUniqueID (src/Server.cpp lines 397-407): the stored
counter is an `unsigned short`; `++mGenIDCounter` increments it modulo
2^16, and if the result equals `USHRT_MAX` it is reset to 1.  The returned
id equals the new counter value, so the new state and the output coincide. -/
def genNext (c : Nat) : Nat :=
  let c1 := (c + 1) % 65536
  if c1 = USHRT_MAX then 1 else c1

/-- Counter value of `Server::mGenIDCounter` after `n` calls of
`GenerateUniqueID`, starting from the constructor value 0
(src/Server.cpp line 54).  For `n ≥ 1` this is also the id returned by
the `n`-th call. -/
def genState : Nat → Nat
  | 0 => 0
  | n + 1 => genNext (genState n)

/-- Network address as seen by the server: the pair of `sin_addr.s_addr`
and `sin_port` of a `sockaddr_in` (both kept in network byte order, as the
source compares them without conversion, src/Server.cpp lines 939-940). -/
def Addr : Type := Nat × Nat

instance : DecidableEq Addr := by unfold Addr; infer_instance

instance : Repr Addr := by unfold Addr; infer_instance

/-- Request (src/Request.h): the unit of work carried through the pipeline. -/
structure Request where
  mClientAddr : Addr
  mClientPacketID : Nat
  mOurPacketID : Nat
  mDomainName : List Nat
  mRawPacket : List Nat
  mForwardedTime : Int
deriving DecidableEq, Repr

/-- Outbox table: the dense array `Server::mOutboxArray` maps a proxy id to
the `unique_ptr<Request>` stored at that slot (null = empty).  It is
embedded as an association list from ids to requests; a key is present
exactly when the slot owns a request. -/
def Table : Type := List (Nat × Request)

instance : DecidableEq Table := by unfold Table; infer_instance

instance : Repr Table := by unfold Table; infer_instance

/-- Slot read `mOutboxArray[id]`: the request stored at `id`, if any. -/
def tblGet (t : Table) (id : Nat) : Option Request :=
  (t.find? (fun p => p.1 == id)).map (fun p => p.2)

/-- Slot clear (`storedAtID.release()` / moving the `unique_ptr` out):
empty the slot at `id`. -/
def tblErase (t : Table) (id : Nat) : Table :=
  t.filter (fun p => p.1 != id)

/-- Slot write `mOutboxArray[id] = move(req)`: store `req` at `id`,
destroying any prior occupant. -/
def tblSet (t : Table) (id : Nat) (r : Request) : Table :=
  (id, r) :: tblErase t id

/-- Keys of the table: the set of occupied slots. -/
def tblKeys (t : Table) : List Nat := t.map (fun p => p.1)

/-- Server::OutboxRemove (src/Server.cpp lines 445-457): atomically take the
request stored at slot `inID`, or return nothing if the slot is empty.  The
`mOutboxQueue` FIFO is not touched (lazy deletion). -/
def OutboxRemove (t : Table) (id : Nat) : Option Request × Table :=
  match tblGet t id with
  | none => (none, t)
  | some r => (some r, tblErase t id)

/-- Server::OutboxAdd (src/Server.cpp lines 420-433): stamp the forward
time, append the proxy id to `mOutboxQueue` and store the request at
`mOutboxArray[id]`, evicting any prior occupant. -/
def OutboxAdd (t : Table) (fifo : List Nat) (req : Request) (now : Int) :
    Table × List Nat :=
  let req1 := { req with mForwardedTime := now }
  (tblSet t req1.mOurPacketID req1, fifo ++ [req1.mOurPacketID])

/-- Server::OutboxTimeout (src/Server.cpp lines 475-515): walk
`mOutboxQueue` from the front.  An id whose slot is empty is popped and
skipped; a live request younger than `SERVER_TIMEOUT_MS` stops the walk;
otherwise the slot is emptied, `mStatsTimeOuts` is incremented and the id
popped.  The returned `Nat` is the number of timeouts counted. -/
def OutboxTimeout (t : Table) (fifo : List Nat) (now : Int) :
    Table × List Nat × Nat :=
  match fifo with
  | [] => (t, [], 0)
  | id :: rest =>
    match tblGet t id with
    | none => OutboxTimeout t rest now
    | some req =>
      if now - req.mForwardedTime < SERVER_TIMEOUT_MS then (t, id :: rest, 0)
      else
        let out := OutboxTimeout (tblErase t id) rest now
        (out.1, out.2.1, out.2.2 + 1)

/-- Sweep algorithm as worded by the specification (§4.3): walk `fifo` from
the front; for each id consult `table[id]`; if empty, pop and continue; if
present and `now − forwarded_at ≥ deadline_ms`, remove from the table, pop
from the fifo and increment the timeout counter; otherwise stop.  Returns
the number of timeouts observed. -/
def sweepSpec (t : Table) (fifo : List Nat) (now : Int) (deadlineMS : Int) :
    Table × List Nat × Nat :=
  match fifo with
  | [] => (t, [], 0)
  | id :: rest =>
    match tblGet t id with
    | none => sweepSpec t rest now deadlineMS
    | some req =>
      if now - req.mForwardedTime ≥ deadlineMS then
        let out := sweepSpec (tblErase t id) rest now deadlineMS
        (out.1, out.2.1, out.2.2 + 1)
      else (t, id :: rest, 0)

/-- Server::InboxQueuePopFront (src/Server.cpp lines 354-366).  The queue
holds `unique_ptr<Request>` values, modelled as `Option Request`.  The body
reads `mInboxQueue.front()` before any emptiness test, so a non-empty queue
is a precondition for the access to be in bounds; the embedding carries it
as the hypothesis `h`.  A null front pointer is returned without popping;
otherwise the front element is moved out and popped. -/
def InboxQueuePopFront (q : List (Option Request)) (h : q ≠ []) :
    Option Request × List (Option Request) :=
  match q with
  | front :: rest =>
    match front with
    | none => (none, none :: rest)
    | some r => (some r, rest)

/-- Loop body of DNSPacket::DecodeAddrStr (src/Packet.cpp lines 119-138),
entered with the current section length already read.  A zero length ends
the name.  Otherwise the section bytes are appended (failing if fewer than
`sectionLen` bytes remain), the next length byte is read (failing on an
empty buffer), and a `'.'` (byte 46) is appended between sections. -/
def decodeLoop (sectionLen : Nat) (data : List Nat) :
    Option (List Nat × List Nat) :=
  if hz : sectionLen = 0 then some ([], data)
  else if h1 : data.length < sectionLen then none
  else if h2 : data.length = sectionLen then none
  else
    match decodeLoop (data.getD sectionLen 0) (data.drop (sectionLen + 1)) with
    | none => none
    | some (tail, rem) =>
      some (data.take sectionLen ++
        (if data.getD sectionLen 0 ≠ 0 then 46 :: tail else tail), rem)
termination_by data.length
decreasing_by
  simp only [List.length_drop]
  omega

/-- DNSPacket::DecodeAddrStr (src/Packet.cpp lines 104-141): decode a
length-prefixed QNAME from the front of `data`, returning the dotted name
and the unconsumed rest of the buffer, or `none` on failure.  The first
length byte requires a non-empty buffer. -/
def DecodeAddrStr (data : List Nat) : Option (List Nat × List Nat) :=
  match data with
  | [] => none
  | len :: rest => decodeLoop len rest

/-- A `memcpy` into the destination buffer: write the given bytes at
consecutive positions starting at `i`.  The write position is not part of
the result — the caller's pointer is unaffected, as in the source. -/
def writeBytes : List Nat → Nat → List Nat → List Nat
  | buf, _, [] => buf
  | buf, i, b :: bs => writeBytes (buf.set i b) (i + 1) bs

/-- DNSPacket::EncodeAddrStr (src/Packet.cpp lines 225-280): encode a
dotted name into the destination buffer `buf` at pointer position `pos`,
with `written` bytes already counted in `ioDataLen` and `remains` bytes of
space left.  For each section delimited by `'.'` (byte 46): the length
byte is stored through an `unsigned char` (modulo 256) and `++ioData`
advances the pointer past it; the section bytes are then `memcpy`ed at the
pointer, but the pointer is NOT advanced past them (the source has no
`ioData += sectionLen` after either memcpy, although `ioDataLen` and
`ioRemainsLen` are debited as if it were) — so the next length byte, or
the terminating zero, lands on top of the first byte of the section just
copied.  Returns the updated buffer, pointer, byte count and remaining
space, or `none` when `remains` is too small. -/
def EncodeAddrStr (s : List Nat) (buf : List Nat) (pos written remains : Nat) :
    Option (List Nat × Nat × Nat × Nat) :=
  if hlast : (s.takeWhile (fun b => b ≠ 46)).length = s.length then
    if remains < 2 + (s.takeWhile (fun b => b ≠ 46)).length then none
    else
      let buf1 := buf.set pos ((s.takeWhile (fun b => b ≠ 46)).length % 256)
      let buf2 := writeBytes buf1 (pos + 1) (s.takeWhile (fun b => b ≠ 46))
      let buf3 := buf2.set (pos + 1) 0
      some (buf3, pos + 2, written + 2 + (s.takeWhile (fun b => b ≠ 46)).length,
        remains - (2 + (s.takeWhile (fun b => b ≠ 46)).length))
  else
    if remains < 1 + (s.takeWhile (fun b => b ≠ 46)).length then none
    else
      let buf1 := buf.set pos ((s.takeWhile (fun b => b ≠ 46)).length % 256)
      let buf2 := writeBytes buf1 (pos + 1) (s.takeWhile (fun b => b ≠ 46))
      EncodeAddrStr (s.drop ((s.takeWhile (fun b => b ≠ 46)).length + 1))
        buf2 (pos + 1) (written + 1 + (s.takeWhile (fun b => b ≠ 46)).length)
        (remains - (1 + (s.takeWhile (fun b => b ≠ 46)).length))
termination_by s.length
decreasing_by
  have hle : (s.takeWhile (fun b => b ≠ 46)).length ≤ s.length :=
    (List.takeWhile_sublist _).length_le
  simp only [List.length_drop]
  omega

/-- Predicate on a dotted name matching the hypotheses of the round-trip
claim as stated: every `'.'`-delimited label is non-empty (no leading dot,
no trailing dot, no consecutive dots, and the name itself is non-empty). -/
def noEmptyLabels (s : List Nat) : Bool :=
  if hlast : (s.takeWhile (fun b => b ≠ 46)).length = s.length then decide (s ≠ [])
  else
    decide (s.takeWhile (fun b => b ≠ 46) ≠ []) &&
      noEmptyLabels (s.drop ((s.takeWhile (fun b => b ≠ 46)).length + 1))
termination_by s.length
decreasing_by
  have hle : (s.takeWhile (fun b => b ≠ 46)).length ≤ s.length :=
    (List.takeWhile_sublist _).length_le
  simp only [List.length_drop]
  omega

/-- Decoded DNS header fields, as read by DNSPacket::Decode.
Modelled from the spec: the struct `DNS_HEADER` is declared in the missing
header Packet.h; §3 of the specification fixes the 12-byte layout as `id`
(16 bits) then flags split as `qr | opcode(4) | aa | tc | rd | ra | z(3) |
rcode(4)` then the four 16-bit counts, all in network byte order. -/
structure DNSHeader where
  id : Nat
  resp : Bool
  opcode : Nat
  aa : Bool
  tc : Bool
  rd : Bool
  ra : Bool
  z : Nat
  rcode : Nat
  qdcount : Nat
  ancount : Nat
  nscount : Nat
  arcount : Nat
deriving DecidableEq, Repr

/-- Big-endian 16-bit read at offset `i` of a byte list (a `memcpy` of two
bytes followed by `ntohs`). -/
def be16At (raw : List Nat) (i : Nat) : Nat :=
  raw.getD i 0 * 256 + raw.getD (i + 1) 0

/-- Header extraction of DNSPacket::Decode (src/Packet.cpp lines 49-62).
Modelled from the spec for the bit positions inside the two flag bytes
(Packet.h is missing); the `qr`/`resp` flag is the top bit of byte 2. -/
def decodeHeader (raw : List Nat) : DNSHeader :=
  let b2 := raw.getD 2 0
  let b3 := raw.getD 3 0
  { id := be16At raw 0
    resp := b2 / 128 % 2 = 1
    opcode := b2 / 8 % 16
    aa := b2 / 4 % 2 = 1
    tc := b2 / 2 % 2 = 1
    rd := b2 % 2 = 1
    ra := b3 / 128 % 2 = 1
    z := b3 / 16 % 8
    rcode := b3 % 16
    qdcount := be16At raw 4
    ancount := be16At raw 6
    nscount := be16At raw 8
    arcount := be16At raw 10 }

/-- Question section: QTYPE and QCLASS (4 bytes after the QNAME). -/
structure DNSQuestion where
  qtype : Nat
  qclass : Nat
deriving DecidableEq, Repr

/-- Result of a successful DNSPacket::Decode. -/
structure DecodedPacket where
  header : DNSHeader
  questionName : List Nat
  question : DNSQuestion
deriving DecidableEq, Repr

/-- DNSPacket::Decode (src/Packet.cpp lines 33-89): fail if fewer than 12
bytes remain for the header, decode the QNAME with `DecodeAddrStr`, then
fail if fewer than 4 bytes remain for QTYPE/QCLASS. -/
def decodePacket (raw : List Nat) : Option DecodedPacket :=
  if raw.length < 12 then none
  else
    match DecodeAddrStr (raw.drop 12) with
    | none => none
    | some (name, rest) =>
      if rest.length < 4 then none
      else
        some { header := decodeHeader raw
               questionName := name
               question := { qtype := be16At rest 0, qclass := be16At rest 2 } }

/-- Response flag as observed by the Egress thread: `packet.Decode()` is
called with its return code ignored (src/Server.cpp line 971) and
`mHeader.resp` is read afterwards.  The header bytes are only copied in
when at least 12 bytes are present; otherwise the flag keeps its
zero-initialised value (query). -/
def packetResp (raw : List Nat) : Bool :=
  if raw.length < 12 then false else raw.getD 2 0 / 128 % 2 = 1

/-- Statistics counters of the server (src/Server.h lines 85-89). -/
structure Stats where
  packetsIn : Nat
  packetsOut : Nat
  requests : Nat
  served : Nat
  timeOuts : Nat
deriving DecidableEq, Repr

/-- Result of one invocation of ServerThreadOutbox::HandlePacket: the
datagram sent to a client (if any), the outbox table and the statistics
after the call, and the return code. -/
structure EgressResult where
  sent : Option (Addr × List Nat)
  table : Table
  stats : Stats
  rc : Int
deriving DecidableEq, Repr

/-- ServerThreadOutbox::HandlePacket (src/Server.cpp lines 918-1041),
handling one datagram received on the upstream socket.  In order:
oversized datagrams are dropped; datagrams whose source address or port
differs from the configured upstream (`fwdAddr`) are dropped with an error;
the raw 16-bit id is read; `Decode`'s return value is ignored and the
response flag is checked (a query is dropped with an error); `packetsIn` is
incremented; the pending request is taken out of the outbox (nothing
pending: dropped silently); a reply older than `SERVER_TIMEOUT_MS` is
dropped and counted as a timeout (the increment is compiled in because
`SERVER_VERBOSE` is 1); otherwise the client id is restored into the raw
bytes and the datagram is sent to the recorded client address, counting
`served` and `packetsOut`.  `mOutboxQueue` is never touched here. -/
def egressHandlePacket (fwdAddr : Addr) (t : Table) (st : Stats)
    (srcAddr : Addr) (data : List Nat) (now : Int) : EgressResult :=
  if data.length > SERVER_MAX_PACKET_SIZE then
    { sent := none, table := t, stats := st, rc := 0 }
  else if srcAddr ≠ fwdAddr then
    { sent := none, table := t, stats := st, rc := -1 }
  else
    let ourID := getRawPacketID data
    if packetResp data = false then
      { sent := none, table := t, stats := st, rc := -1 }
    else
      let st1 := { st with packetsIn := st.packetsIn + 1 }
      match OutboxRemove t ourID with
      | (none, _) => { sent := none, table := t, stats := st1, rc := 0 }
      | (some req, t1) =>
        if now - req.mForwardedTime ≥ SERVER_TIMEOUT_MS then
          { sent := none, table := t1,
            stats := { st1 with timeOuts := st1.timeOuts + 1 }, rc := 0 }
        else
          { sent := some (req.mClientAddr, setRawPacketID req.mClientPacketID data),
            table := t1,
            stats := { st1 with
                       served := st1.served + 1
                       packetsOut := st1.packetsOut + 1 }, rc := 0 }

/-- ServerThreadProcess::HandleRequest (src/Server.cpp lines 733-848) on a
request holding raw bytes `raw` from client `clientAddr`, starting from id
counter `gen`, outbox `(t, fifo)` and statistics `st` (the disabled cache
is omitted, `SERVER_USE_CACHE` is 0).  Decode failures and response packets
are dropped before `requests` is counted; otherwise the client id is saved,
a fresh proxy id is written into the raw bytes, the request is added to the
outbox with the current time, and the rewritten datagram is forwarded
upstream (counting `packetsOut`).  Returns the new counter, outbox and
statistics. -/
def processHandleRequest (gen : Nat) (t : Table) (fifo : List Nat)
    (st : Stats) (clientAddr : Addr) (raw : List Nat) (now : Int) :
    Nat × Table × List Nat × Stats :=
  match decodePacket raw with
  | none => (gen, t, fifo, st)
  | some dec =>
    if dec.header.resp then (gen, t, fifo, st)
    else
      let st1 := { st with requests := st.requests + 1 }
      let ourID := genNext gen
      let clientID := getRawPacketID raw
      let req : Request :=
        { mClientAddr := clientAddr
          mClientPacketID := clientID
          mOurPacketID := ourID
          mDomainName := dec.questionName
          mRawPacket := setRawPacketID ourID raw
          mForwardedTime := 0 }
      let ob := OutboxAdd t fifo req now
      (ourID, ob.1, ob.2, { st1 with packetsOut := st1.packetsOut + 1 })

/-- Events driving the request-correlation pipeline, each tagged with the
monotonic-clock reading `now` at which it is handled.  `query` is a
datagram arriving on the client socket (handled by Ingress and then by the
Processor), `reply` a datagram arriving on the upstream socket (handled by
Egress), `sweep` one run of the maintenance thread. -/
inductive Event where
  | query (now : Int) (srcAddr : Addr) (raw : List Nat)
  | reply (now : Int) (srcAddr : Addr) (raw : List Nat)
  | sweep (now : Int)

/-- Shared state of the server: the id-generator counter, the outbox table
and FIFO, and the statistics counters. -/
structure ServerState where
  gen : Nat
  table : Table
  fifo : List Nat
  stats : Stats
deriving DecidableEq, Repr

/-- State at startup: counter 0, empty outbox, zero counters. -/
def initState : ServerState :=
  { gen := 0, table := [], fifo := []
    stats := { packetsIn := 0, packetsOut := 0, requests := 0,
               served := 0, timeOuts := 0 } }

/-- One quiescent-point step of the pipeline.  A `query` runs
ServerThreadInbox::HandlePacket (oversize drop, then `mStatsPacketsIn` is
incremented by InboxQueuePushBack) followed by the Processor stage on the
queued request; a `reply` runs ServerThreadOutbox::HandlePacket, whose sent
datagram (if any) is returned alongside the new state; a `sweep` runs
Server::OutboxTimeout, adding the observed count to `mStatsTimeOuts`. -/
def step (fwdAddr : Addr) (s : ServerState) (e : Event) :
    ServerState × Option (Addr × List Nat) :=
  match e with
  | .query now srcAddr raw =>
    if raw.length > SERVER_MAX_PACKET_SIZE then (s, none)
    else
      let st1 := { s.stats with packetsIn := s.stats.packetsIn + 1 }
      let out := processHandleRequest s.gen s.table s.fifo st1 srcAddr raw now
      ({ gen := out.1, table := out.2.1, fifo := out.2.2.1, stats := out.2.2.2 },
       none)
  | .reply now srcAddr raw =>
    let out := egressHandlePacket fwdAddr s.table s.stats srcAddr raw now
    ({ s with table := out.table, stats := out.stats }, out.sent)
  | .sweep now =>
    let out := OutboxTimeout s.table s.fifo now
    ({ s with
       table := out.1
       fifo := out.2.1
       stats := { s.stats with timeOuts := s.stats.timeOuts + out.2.2 } }, none)

/-- State after handling a sequence of events. -/
def run (fwdAddr : Addr) (s : ServerState) : List Event → ServerState
  | [] => s
  | e :: es => run fwdAddr (step fwdAddr s e).1 es

/-- Statistics balance of invariant I4/P1: every counted request has either
been served, timed out, or is still stored in the outbox table. -/
def statsInv (s : ServerState) : Prop :=
  s.stats.requests = s.stats.served + s.stats.timeOuts + s.table.length

instance (s : ServerState) : Decidable (statsInv s) := by
  unfold statsInv; infer_instance

/-- Check whether handling event `e` in state `s` evicts a still-pending
request: a valid query whose freshly allocated proxy id hits an occupied
outbox slot (`OutboxAdd` then destroys the prior occupant). -/
def stepEvicts (s : ServerState) (e : Event) : Bool :=
  match e with
  | .query _ _ raw =>
    decide (raw.length ≤ SERVER_MAX_PACKET_SIZE) &&
      (match decodePacket raw with
       | none => false
       | some dec => !dec.header.resp && (tblGet s.table (genNext s.gen)).isSome)
  | .reply _ _ _ => false
  | .sweep _ => false

/-- Check that no event of the trace evicts a pending request. -/
def noEviction (fwdAddr : Addr) (s : ServerState) : List Event → Bool
  | [] => true
  | e :: es => !stepEvicts s e && noEviction fwdAddr (step fwdAddr s e).1 es

/-- Sample request used to instantiate witnesses on concrete inputs. -/
def sampleRequest : Request :=
  { mClientAddr := (9, 9)
    mClientPacketID := 43981
    mOurPacketID := 3
    mDomainName := [97]
    mRawPacket := []
    mForwardedTime := 0 }

/-- Sample statistics used to instantiate witnesses on concrete inputs. -/
def sampleStats : Stats :=
  { packetsIn := 4, packetsOut := 3, requests := 2, served := 1, timeOuts := 0 }

/-- Reading a slot of a table with a front entry. -/
theorem tblGet_cons (k : Nat) (r : Request) (t : Table) (id : Nat) :
    tblGet ((k, r) :: t) id = if k = id then some r else tblGet t id := by
  by_cases h : k = id
  · simp [tblGet, List.find?_cons_of_pos, h]
  · simp only [tblGet, Table] at *
    rw [List.find?_cons_of_neg]
    · simp [h]
    · simp [h]

/-- Erasing a slot of a table with a front entry. -/
theorem tblErase_cons (k : Nat) (r : Request) (t : Table) (id : Nat) :
    tblErase ((k, r) :: t) id =
      if k = id then tblErase t id else (k, r) :: tblErase t id := by
  by_cases h : k = id <;> simp [tblErase, List.filter_cons, h]

/-- Erasing one slot does not change any other slot. -/
theorem tblGet_tblErase (t : Table) (j id : Nat) (h : j ≠ id) :
    tblGet (tblErase t j) id = tblGet t id := by
  induction t with
  | nil => rfl
  | cons p t ih =>
    obtain ⟨k, r⟩ := p
    rw [tblErase_cons]
    by_cases hk : k = j
    · subst hk
      rw [if_pos rfl, ih, tblGet_cons, if_neg h]
    · rw [if_neg hk, tblGet_cons, tblGet_cons, ih]

/-- Below 65534 the generator counter just counts up: after `n` calls the
counter (and the `n`-th returned id) is `n`. -/
theorem genState_eq_self (n : Nat) (h : n ≤ 65534) : genState n = n := by
  induction n with
  | zero => rfl
  | succ n ih =>
    have hn : n ≤ 65534 := by omega
    simp only [genState, ih hn, genNext, USHRT_MAX]
    have hmod : (n + 1) % 65536 = n + 1 := Nat.mod_eq_of_lt (by omega)
    rw [hmod, if_neg (by omega)]

/-- Claim C4, counterexample.  The first call of `Server::GenerateUniqueID`
returns 1 and the 65535-th call returns 1 again: the id 1 repeats after
only 65534 intervening calls, so the generator cannot have cycled through
all 65535 values of `[1, 65535]` before a repeat (`++mGenIDCounter`
becoming `USHRT_MAX` is immediately reset to 1, so 65535 itself is never
returned). -/
theorem claim_C4_counterexample :
    genState 1 = 1 ∧ genState 65535 = 1 ∧ (1 : Nat) ≠ 65535 := by
  refine ⟨rfl, ?_, by decide⟩
  have h : (65535 : Nat) = 65534 + 1 := rfl
  rw [h]
  have h2 : genState (65534 + 1) = genNext (genState 65534) := rfl
  rw [h2, genState_eq_self 65534 (by omega)]
  decide

/-- Claim C4, amended.  `GenerateUniqueID` never returns 0: the `n`-th call
(`n ≥ 1`) returns `(n − 1) % 65534 + 1`, a value in `[1, 65534]`, so
successive calls cycle through every value of `[1, 65534]` (not
`[1, 65535]`: the value 65535 is never returned) before any value
repeats. -/
theorem claim_C4 (n : Nat) (h : 1 ≤ n) :
    genState n = (n - 1) % 65534 + 1 ∧
      1 ≤ genState n ∧ genState n ≤ 65534 := by
  induction n with
  | zero => omega
  | succ n ih =>
    by_cases hn : n = 0
    · subst hn
      refine ⟨?_, by decide, by decide⟩
      rfl
    · obtain ⟨hval, h1, h2⟩ := ih (by omega)
      have hstep : genState (n + 1) = genNext (genState n) := rfl
      rw [hstep, hval]
      simp only [genNext, USHRT_MAX]
      have hmod : ((n - 1) % 65534 + 1 + 1) % 65536 = (n - 1) % 65534 + 2 :=
        Nat.mod_eq_of_lt (by omega)
      rw [hmod]
      split
      · next heq => constructor <;> omega
      · next hne => constructor <;> omega

/-- Witness for the amended claim C4 at the concrete call index 2. -/
theorem claim_C4_witness :
    1 ≤ 2 ∧
      (genState 2 = (2 - 1) % 65534 + 1 ∧
        1 ≤ genState 2 ∧ genState 2 ≤ 65534) :=
  ⟨by decide, claim_C4 2 (by decide)⟩

/-- Claim C5.  `Server::mOutboxArray` is declared with `USHRT_MAX` = 65535
slots (src/Server.h line 124), one fewer than the 65536 ids of the full
16-bit space: index 65535 is out of bounds.  `ServerThreadOutbox`
nevertheless passes the 16-bit id read from a received upstream datagram
straight to `Server::OutboxRemove` (src/Server.cpp lines 962, 983), so a
datagram whose first two bytes are `0xFF 0xFF` makes `OutboxRemove` read
`mOutboxArray[65535]`, one past the end of the array. -/
theorem claim_C5 :
    outboxArraySize = 65535 ∧
      ¬ outboxIndexInBounds 65535 ∧
      getRawPacketID [255, 255] = 65535 ∧
      outboxIndexInBounds 65534 := by
  refine ⟨rfl, ?_, by decide, by decide⟩
  unfold outboxIndexInBounds outboxArraySize USHRT_MAX
  omega

/-- Claim C10.  Called on a non-empty inbox queue whose front element is an
actual request (the only kind ever pushed, src/Server.cpp line 667),
`Server::InboxQueuePopFront` removes and returns the front element.  The
non-emptiness hypothesis is what makes the unconditional
`mInboxQueue.front()` read at the top of the function in bounds; the
embedding therefore requires it as the argument `h`. -/
theorem claim_C10 (r : Request) (rest : List (Option Request))
    (h : (some r :: rest : List (Option Request)) ≠ []) :
    InboxQueuePopFront (some r :: rest) h = (some r, rest) := rfl

/-- Witness for claim C10 on a concrete one-element queue. -/
theorem claim_C10_witness :
    (some sampleRequest :: [] : List (Option Request)) ≠ [] ∧
      InboxQueuePopFront (some sampleRequest :: []) (by simp) =
        (some sampleRequest, []) :=
  ⟨by simp, claim_C10 sampleRequest [] (by simp)⟩

/-- A true response flag needs the full 12-byte header. -/
theorem packetResp_length (data : List Nat) (h : packetResp data = true) :
    12 ≤ data.length := by
  by_cases hl : data.length < 12
  · simp [packetResp, hl] at h
  · omega

/-- Claim C2.  A datagram arriving on the upstream socket from a source
whose address or port differs from the configured upstream resolver is
dropped by the Egress before it touches any state: nothing is sent to any
client and the whole server state — outbox table, FIFO, statistics —
is unchanged, whatever the datagram's id. -/
theorem claim_C2 (fwdAddr srcAddr : Addr) (s : ServerState) (now : Int)
    (raw : List Nat) (h : srcAddr ≠ fwdAddr) :
    step fwdAddr s (.reply now srcAddr raw) = (s, none) := by
  by_cases hlen : raw.length > SERVER_MAX_PACKET_SIZE
  · simp [step, egressHandlePacket, hlen]
  · simp [step, egressHandlePacket, hlen, h]

/-- Witness for claim C2: a spoofed source address on a concrete state. -/
theorem claim_C2_witness :
    ((0, 1) : Addr) ≠ ((0, 2) : Addr) ∧
      step (0, 2) initState (.reply 0 (0, 1) [1, 2, 3]) = (initState, none) :=
  ⟨by decide, claim_C2 (0, 2) (0, 1) initState 0 [1, 2, 3] (by decide)⟩

/-- Claim C3.  An upstream reply that passes the source and response-flag
checks and matches a pending request whose elapsed time `now −
forwarded_at` is at least `SERVER_TIMEOUT_MS` is dropped by the Egress:
nothing is sent to the client, `mStatsTimeOuts` is incremented by one (the
increment is compiled in because `SERVER_VERBOSE` is 1) and `mStatsServed`
is unchanged. -/
theorem claim_C3 (fwdAddr : Addr) (t : Table) (st : Stats) (data : List Nat)
    (now : Int) (req : Request)
    (hlen : data.length ≤ SERVER_MAX_PACKET_SIZE)
    (hresp : packetResp data = true)
    (hmatch : tblGet t (getRawPacketID data) = some req)
    (htime : now - req.mForwardedTime ≥ SERVER_TIMEOUT_MS) :
    (egressHandlePacket fwdAddr t st fwdAddr data now).sent = none ∧
      (egressHandlePacket fwdAddr t st fwdAddr data now).stats.timeOuts =
        st.timeOuts + 1 ∧
      (egressHandlePacket fwdAddr t st fwdAddr data now).stats.served =
        st.served := by
  have hng : ¬ data.length > SERVER_MAX_PACKET_SIZE := by omega
  simp [egressHandlePacket, OutboxRemove, hng, hresp, hmatch, htime]

/-- Witness for claim C3 on a concrete late reply (forwarded at 0,
answered at 2500 ms). -/
theorem claim_C3_witness :
    ([0, 3, 128, 0, 0, 0, 0, 0, 0, 0, 0, 0] : List Nat).length ≤
        SERVER_MAX_PACKET_SIZE ∧
      packetResp [0, 3, 128, 0, 0, 0, 0, 0, 0, 0, 0, 0] = true ∧
      tblGet [(3, sampleRequest)]
          (getRawPacketID [0, 3, 128, 0, 0, 0, 0, 0, 0, 0, 0, 0]) =
        some sampleRequest ∧
      (2500 : Int) - sampleRequest.mForwardedTime ≥ SERVER_TIMEOUT_MS ∧
      ((egressHandlePacket (1, 1) [(3, sampleRequest)] sampleStats (1, 1)
              [0, 3, 128, 0, 0, 0, 0, 0, 0, 0, 0, 0] 2500).sent = none ∧
        (egressHandlePacket (1, 1) [(3, sampleRequest)] sampleStats (1, 1)
              [0, 3, 128, 0, 0, 0, 0, 0, 0, 0, 0, 0] 2500).stats.timeOuts =
          sampleStats.timeOuts + 1 ∧
        (egressHandlePacket (1, 1) [(3, sampleRequest)] sampleStats (1, 1)
              [0, 3, 128, 0, 0, 0, 0, 0, 0, 0, 0, 0] 2500).stats.served =
          sampleStats.served) :=
  ⟨by decide, by decide, by decide, by decide,
    claim_C3 (1, 1) [(3, sampleRequest)] sampleStats
      [0, 3, 128, 0, 0, 0, 0, 0, 0, 0, 0, 0] 2500 sampleRequest
      (by decide) (by decide) (by decide) (by decide)⟩

/-- Claim C1.  A reply delivered to a client equals the upstream response
bytes verbatim except that bytes 0–1 are rewritten, big-endian, to the
16-bit transaction id the client originally sent (`mClientPacketID`, saved
by the Processor from the client's datagram before the proxy id was written
over it): the delivered datagram is `setRawPacketID` of the upstream bytes,
its first two bytes are the big-endian client id, its remaining bytes and
length are unchanged, and reading its id back yields the client id. -/
theorem claim_C1 (fwdAddr : Addr) (t : Table) (st : Stats) (data : List Nat)
    (now : Int) (req : Request)
    (hlen : data.length ≤ SERVER_MAX_PACKET_SIZE)
    (hresp : packetResp data = true)
    (hmatch : tblGet t (getRawPacketID data) = some req)
    (htime : now - req.mForwardedTime < SERVER_TIMEOUT_MS)
    (hid : req.mClientPacketID < 65536) :
    (egressHandlePacket fwdAddr t st fwdAddr data now).sent =
        some (req.mClientAddr, setRawPacketID req.mClientPacketID data) ∧
      setRawPacketID req.mClientPacketID data =
        req.mClientPacketID / 256 :: req.mClientPacketID % 256 ::
          data.drop 2 ∧
      (setRawPacketID req.mClientPacketID data).drop 2 = data.drop 2 ∧
      (setRawPacketID req.mClientPacketID data).length = data.length ∧
      getRawPacketID (setRawPacketID req.mClientPacketID data) =
        req.mClientPacketID := by
  have hng : ¬ data.length > SERVER_MAX_PACKET_SIZE := by omega
  have hnt : ¬ now - req.mForwardedTime ≥ SERVER_TIMEOUT_MS := by omega
  have h12 : 12 ≤ data.length := packetResp_length data hresp
  have hdiv : req.mClientPacketID / 256 % 256 = req.mClientPacketID / 256 :=
    Nat.mod_eq_of_lt (by omega)
  refine ⟨?_, ?_, ?_, ?_, ?_⟩
  · simp [egressHandlePacket, OutboxRemove, hng, hresp, hmatch, hnt]
  · simp [setRawPacketID, hdiv]
  · simp [setRawPacketID]
  · simp [setRawPacketID]
    omega
  · simp [setRawPacketID, getRawPacketID, hdiv]
    omega

/-- Witness for claim C1 on a concrete in-time reply (forwarded at 0,
answered at 100 ms): the client id 43981 = 0xABCD is written back over the
proxy id 3 and the rest of the upstream bytes is delivered untouched. -/
theorem claim_C1_witness :
    ([0, 3, 128, 0, 0, 0, 0, 0, 0, 0, 0, 0, 7] : List Nat).length ≤
        SERVER_MAX_PACKET_SIZE ∧
      packetResp [0, 3, 128, 0, 0, 0, 0, 0, 0, 0, 0, 0, 7] = true ∧
      tblGet [(3, sampleRequest)]
          (getRawPacketID [0, 3, 128, 0, 0, 0, 0, 0, 0, 0, 0, 0, 7]) =
        some sampleRequest ∧
      (100 : Int) - sampleRequest.mForwardedTime < SERVER_TIMEOUT_MS ∧
      sampleRequest.mClientPacketID < 65536 ∧
      ((egressHandlePacket (1, 1) [(3, sampleRequest)] sampleStats (1, 1)
              [0, 3, 128, 0, 0, 0, 0, 0, 0, 0, 0, 0, 7] 100).sent =
          some (sampleRequest.mClientAddr,
            setRawPacketID sampleRequest.mClientPacketID
              [0, 3, 128, 0, 0, 0, 0, 0, 0, 0, 0, 0, 7]) ∧
        setRawPacketID sampleRequest.mClientPacketID
            [0, 3, 128, 0, 0, 0, 0, 0, 0, 0, 0, 0, 7] =
          sampleRequest.mClientPacketID / 256 ::
            sampleRequest.mClientPacketID % 256 ::
            ([0, 3, 128, 0, 0, 0, 0, 0, 0, 0, 0, 0, 7] : List Nat).drop 2 ∧
        (setRawPacketID sampleRequest.mClientPacketID
            [0, 3, 128, 0, 0, 0, 0, 0, 0, 0, 0, 0, 7]).drop 2 =
          ([0, 3, 128, 0, 0, 0, 0, 0, 0, 0, 0, 0, 7] : List Nat).drop 2 ∧
        (setRawPacketID sampleRequest.mClientPacketID
            [0, 3, 128, 0, 0, 0, 0, 0, 0, 0, 0, 0, 7]).length =
          ([0, 3, 128, 0, 0, 0, 0, 0, 0, 0, 0, 0, 7] : List Nat).length ∧
        getRawPacketID (setRawPacketID sampleRequest.mClientPacketID
            [0, 3, 128, 0, 0, 0, 0, 0, 0, 0, 0, 0, 7]) =
          sampleRequest.mClientPacketID) :=
  ⟨by decide, by decide, by decide, by decide, by decide,
    claim_C1 (1, 1) [(3, sampleRequest)] sampleStats
      [0, 3, 128, 0, 0, 0, 0, 0, 0, 0, 0, 0, 7] 100 sampleRequest
      (by decide) (by decide) (by decide) (by decide) (by decide)⟩

/-- Claim C6.  `Server::OutboxTimeout` computes exactly the sweep of the
specification with deadline `SERVER_TIMEOUT_MS`: same final table, same
remaining FIFO, same number of timeouts counted. -/
theorem claim_C6 (t : Table) (fifo : List Nat) (now : Int) :
    OutboxTimeout t fifo now = sweepSpec t fifo now SERVER_TIMEOUT_MS := by
  induction fifo generalizing t with
  | nil => rfl
  | cons id rest ih =>
    simp only [OutboxTimeout, sweepSpec]
    cases h : tblGet t id with
    | none => exact ih t
    | some req =>
      dsimp only
      by_cases ht : now - req.mForwardedTime < SERVER_TIMEOUT_MS
      · rw [if_pos ht, if_neg (by omega)]
      · rw [if_neg ht, if_pos (by omega), ih]

/-- Claim C7.  A request in the outbox table whose age `now −
forwarded_at` is below `SERVER_TIMEOUT_MS` when `Server::OutboxTimeout`
runs is still in the table, unchanged, when the sweep finishes: the sweep
never removes an entry younger than the timeout. -/
theorem claim_C7 (t : Table) (fifo : List Nat) (now : Int) (id : Nat)
    (req : Request) (hpresent : tblGet t id = some req)
    (hyoung : now - req.mForwardedTime < SERVER_TIMEOUT_MS) :
    tblGet (OutboxTimeout t fifo now).1 id = some req := by
  induction fifo generalizing t with
  | nil => simpa [OutboxTimeout] using hpresent
  | cons j rest ih =>
    simp only [OutboxTimeout]
    cases h : tblGet t j with
    | none => exact ih t hpresent
    | some r =>
      dsimp only
      by_cases ht : now - r.mForwardedTime < SERVER_TIMEOUT_MS
      · rw [if_pos ht]
        exact hpresent
      · rw [if_neg ht]
        have hne : j ≠ id := by
          intro he
          subst he
          rw [hpresent] at h
          cases h
          omega
        have hget : tblGet (tblErase t j) id = some req :=
          (tblGet_tblErase t j id hne).trans hpresent
        exact ih (tblErase t j) hget

/-- Witness for claim C7: a 100 ms old entry survives a concrete sweep. -/
theorem claim_C7_witness :
    tblGet [(3, sampleRequest)] 3 = some sampleRequest ∧
      (100 : Int) - sampleRequest.mForwardedTime < SERVER_TIMEOUT_MS ∧
      tblGet (OutboxTimeout [(3, sampleRequest)] [3] 100).1 3 =
        some sampleRequest :=
  ⟨by decide, by decide,
    claim_C7 [(3, sampleRequest)] [3] 100 3 sampleRequest
      (by decide) (by decide)⟩

/-- Reading just past a prefix of known length lands on the next element. -/
theorem getD_append_length (l : List Nat) (b : Nat) (r : List Nat) (d : Nat) :
    (l ++ b :: r).getD l.length d = b := by
  induction l with
  | nil => rfl
  | cons a l ih => simpa using ih

/-- Dropping a prefix of known length plus one lands after the next
element. -/
theorem drop_append_length (l : List Nat) (b : Nat) (r : List Nat) :
    (l ++ b :: r).drop (l.length + 1) = r := by
  have h : l ++ b :: r = (l ++ [b]) ++ r := by simp
  rw [h]
  exact List.drop_left' (by simp)

/-- Unfolding of `decodeLoop` on a buffer that starts with a complete
non-empty section followed by the next length byte. -/
theorem decodeLoop_label (l : List Nat) (hne : l ≠ []) (k : Nat)
    (rest : List Nat) :
    decodeLoop l.length (l ++ k :: rest) =
      match decodeLoop k rest with
      | none => none
      | some (tail, rem) =>
        some (l ++ (if k ≠ 0 then 46 :: tail else tail), rem) := by
  have hlz : l.length ≠ 0 := by
    simpa using List.length_pos.mpr hne |>.ne'
  have hlen : (l ++ k :: rest).length = l.length + (rest.length + 1) := by
    simp
  rw [decodeLoop]
  rw [dif_neg hlz, dif_neg (by omega), dif_neg (by omega)]
  rw [getD_append_length l k rest 0, drop_append_length l k rest,
    List.take_left l (k :: rest)]

/-- Claim C9.  The round-trip identity is the evident intent of the
`EncodeAddrStr`/`DecodeAddrStr` pair (spec §4.1: each segment becomes a
length byte followed by the segment bytes), but `EncodeAddrStr` never
advances `ioData` past the section bytes it copies (no
`ioData += sectionLen` after either memcpy in src/Packet.cpp lines
247 and 269, although `ioDataLen`/`ioRemainsLen` are debited for them and
`DecodeAddrStr` advances past the same bytes when reading), so each
following write overwrites the section just copied.  Evaluated at the
name `a.b` with a ten-byte zeroed buffer: the claim's hypotheses hold (no
empty labels, the encoding fits), yet the encoder leaves `[1, 1, 0]` in
the buffer — the second length byte lands on `a`, the terminating zero on
`b` — reports 5 bytes written, and decoding those 5 bytes yields the
one-byte name `[1]`, not `a.b`. -/
theorem claim_C9 :
    noEmptyLabels [97, 46, 98] = true ∧
      EncodeAddrStr [97, 46, 98] [0, 0, 0, 0, 0, 0, 0, 0, 0, 0] 0 0 10 =
        some ([1, 1, 0, 0, 0, 0, 0, 0, 0, 0], 3, 5, 5) ∧
      DecodeAddrStr (List.take 5 [1, 1, 0, 0, 0, 0, 0, 0, 0, 0]) =
        some ([1], [0, 0]) ∧
      (([1] : List Nat) ≠ [97, 46, 98]) := by
  refine ⟨?_, ?_, ?_, by decide⟩
  · rw [noEmptyLabels, noEmptyLabels]
    decide
  · rw [EncodeAddrStr, EncodeAddrStr]
    decide
  · show decodeLoop 1 [1, 0, 0, 0] = _
    rw [decodeLoop, decodeLoop]
    decide

/-- Well-formed table: each slot owns at most one request, i.e. keys are
unique.  Every table reachable from the empty one has this shape. -/
def tblWF (t : Table) : Prop := (tblKeys t).Nodup

/-- An empty slot is exactly an absent key. -/
theorem tblGet_eq_none (t : Table) (id : Nat) :
    tblGet t id = none ↔ id ∉ tblKeys t := by
  induction t with
  | nil => simp [tblGet, tblKeys]
  | cons p t ih =>
    obtain ⟨k, r⟩ := p
    rw [tblGet_cons]
    by_cases h : k = id
    · simp [h, tblKeys]
    · simp [h, tblKeys, ih, Ne.symm h]

/-- An occupied slot is a present key. -/
theorem tblGet_some_mem (t : Table) (id : Nat) (r : Request)
    (h : tblGet t id = some r) : id ∈ tblKeys t := by
  by_contra hmem
  rw [← tblGet_eq_none t id] at hmem
  rw [h] at hmem
  cases hmem

/-- Erasing an absent key leaves the table unchanged. -/
theorem tblErase_of_not_mem (t : Table) (id : Nat)
    (h : id ∉ tblKeys t) : tblErase t id = t := by
  induction t with
  | nil => rfl
  | cons p t ih =>
    obtain ⟨k, r⟩ := p
    simp only [tblKeys, List.map_cons, List.mem_cons, not_or] at h
    rw [tblErase_cons, if_neg (fun he => h.1 he.symm),
      ih (by simpa [tblKeys] using h.2)]

/-- Keys after erasing a slot. -/
theorem tblKeys_tblErase (t : Table) (id : Nat) :
    tblKeys (tblErase t id) = (tblKeys t).filter (fun k => k != id) := by
  induction t with
  | nil => rfl
  | cons p t ih =>
    obtain ⟨k, r⟩ := p
    have hcons : tblKeys ((k, r) :: t) = k :: tblKeys t := rfl
    rw [tblErase_cons, hcons, List.filter_cons]
    by_cases h : k = id
    · rw [if_pos h]
      have hb : (k != id) = false := by simp [h]
      rw [hb]
      simp only [Bool.false_eq_true, if_false]
      exact ih
    · rw [if_neg h]
      have hkeys : tblKeys ((k, r) :: tblErase t id) =
          k :: tblKeys (tblErase t id) := rfl
      rw [hkeys, ih]
      have hb : (k != id) = true := by simp [h]
      rw [hb, if_pos rfl]

/-- Erasing preserves key uniqueness. -/
theorem tblWF_tblErase (t : Table) (id : Nat) (h : tblWF t) :
    tblWF (tblErase t id) := by
  rw [tblWF, tblKeys_tblErase]
  exact h.filter _

/-- Writing a slot preserves key uniqueness. -/
theorem tblWF_tblSet (t : Table) (id : Nat) (r : Request) (h : tblWF t) :
    tblWF (tblSet t id r) := by
  rw [tblWF, tblSet, tblKeys, List.map_cons]
  refine List.nodup_cons.mpr ⟨?_, tblWF_tblErase t id h⟩
  show id ∉ tblKeys (tblErase t id)
  rw [tblKeys_tblErase]
  intro hmem
  have := List.of_mem_filter hmem
  simp at this

/-- Erasing a present key of a well-formed table removes exactly one
entry. -/
theorem length_tblErase_of_mem (t : Table) (id : Nat) (hWF : tblWF t)
    (hmem : id ∈ tblKeys t) : (tblErase t id).length + 1 = t.length := by
  induction t with
  | nil => cases hmem
  | cons p t ih =>
    obtain ⟨k, r⟩ := p
    rw [tblWF, tblKeys, List.map_cons, List.nodup_cons] at hWF
    rw [tblErase_cons]
    by_cases h : k = id
    · subst h
      rw [if_pos rfl, tblErase_of_not_mem t k hWF.1]
      simp
    · simp only [tblKeys, List.map_cons, List.mem_cons] at hmem
      have hmem' : id ∈ tblKeys t := hmem.resolve_left (fun he => h he.symm)
      rw [if_neg h, List.length_cons, List.length_cons,
        ih hWF.2 hmem']

/-- Writing an absent key of a table adds exactly one entry. -/
theorem length_tblSet_of_not_mem (t : Table) (id : Nat) (r : Request)
    (hmem : id ∉ tblKeys t) : (tblSet t id r).length = t.length + 1 := by
  rw [tblSet, List.length_cons, tblErase_of_not_mem t id hmem]

/-- The sweep balances its books: on a well-formed table, the entries it
removes are exactly the timeouts it counts, and the table stays
well-formed. -/
theorem OutboxTimeout_length (fifo : List Nat) : ∀ (t : Table) (now : Int),
    tblWF t →
    (OutboxTimeout t fifo now).1.length + (OutboxTimeout t fifo now).2.2 =
        t.length ∧
      tblWF (OutboxTimeout t fifo now).1 := by
  induction fifo with
  | nil =>
    intro t now hWF
    exact ⟨by simp [OutboxTimeout], hWF⟩
  | cons id rest ih =>
    intro t now hWF
    simp only [OutboxTimeout]
    cases h : tblGet t id with
    | none => exact ih t now hWF
    | some req =>
      dsimp only
      by_cases ht : now - req.mForwardedTime < SERVER_TIMEOUT_MS
      · rw [if_pos ht]
        exact ⟨by simp, hWF⟩
      · rw [if_neg ht]
        have hWF' : tblWF (tblErase t id) := tblWF_tblErase t id hWF
        have hmem : id ∈ tblKeys t := tblGet_some_mem t id req h
        have hlen := length_tblErase_of_mem t id hWF hmem
        obtain ⟨ih1, ih2⟩ := ih (tblErase t id) now hWF'
        exact ⟨by dsimp only; omega, ih2⟩

/-- One non-evicting pipeline step preserves the statistics balance and
table well-formedness. -/
theorem statsInv_step (fwdAddr : Addr) (s : ServerState) (e : Event)
    (hInv : statsInv s) (hWF : tblWF s.table)
    (hnev : stepEvicts s e = false) :
    statsInv (step fwdAddr s e).1 ∧ tblWF (step fwdAddr s e).1.table := by
  cases e with
  | query now srcAddr raw =>
    simp only [step]
    by_cases hlen : raw.length > SERVER_MAX_PACKET_SIZE
    · rw [if_pos hlen]
      exact ⟨hInv, hWF⟩
    · rw [if_neg hlen]
      have hle : raw.length ≤ SERVER_MAX_PACKET_SIZE := Nat.not_lt.mp hlen
      simp only [processHandleRequest]
      cases hdec : decodePacket raw with
      | none =>
        dsimp only
        refine ⟨?_, hWF⟩
        simpa [statsInv] using hInv
      | some dec =>
        dsimp only
        by_cases hresp : dec.header.resp = true
        · rw [if_pos hresp]
          refine ⟨?_, hWF⟩
          simpa [statsInv] using hInv
        · rw [if_neg hresp]
          have hrespf : dec.header.resp = false := by
            revert hresp
            cases dec.header.resp <;> simp
          have hget : tblGet s.table (genNext s.gen) = none := by
            rcases hg : tblGet s.table (genNext s.gen) with _ | r
            · rfl
            · exfalso
              rw [stepEvicts] at hnev
              simp [hdec, hg, hle, hrespf] at hnev
          simp only [OutboxAdd]
          refine ⟨?_, tblWF_tblSet _ _ _ hWF⟩
          simp only [statsInv] at hInv ⊢
          rw [length_tblSet_of_not_mem _ _ _ ((tblGet_eq_none ..).mp hget)]
          omega
  | reply now srcAddr raw =>
    simp only [step, egressHandlePacket]
    by_cases h1 : raw.length > SERVER_MAX_PACKET_SIZE
    · rw [if_pos h1]
      exact ⟨hInv, hWF⟩
    · rw [if_neg h1]
      by_cases h2 : srcAddr ≠ fwdAddr
      · rw [if_pos h2]
        exact ⟨hInv, hWF⟩
      · rw [if_neg h2]
        by_cases h3 : packetResp raw = false
        · rw [if_pos h3]
          exact ⟨hInv, hWF⟩
        · rw [if_neg h3]
          simp only [OutboxRemove]
          cases hg : tblGet s.table (getRawPacketID raw) with
          | none =>
            dsimp only
            refine ⟨?_, hWF⟩
            simpa [statsInv] using hInv
          | some req =>
            dsimp only
            have hmem := tblGet_some_mem _ _ _ hg
            have hlen := length_tblErase_of_mem s.table _ hWF hmem
            have hWF' := tblWF_tblErase s.table (getRawPacketID raw) hWF
            by_cases h4 : now - req.mForwardedTime ≥ SERVER_TIMEOUT_MS
            · rw [if_pos h4]
              refine ⟨?_, hWF'⟩
              simp only [statsInv] at hInv ⊢
              omega
            · rw [if_neg h4]
              refine ⟨?_, hWF'⟩
              simp only [statsInv] at hInv ⊢
              omega
  | sweep now =>
    simp only [step]
    obtain ⟨hl, hw⟩ := OutboxTimeout_length s.fifo s.table now hWF
    refine ⟨?_, hw⟩
    simp only [statsInv] at hInv ⊢
    omega

/-- The statistics balance is preserved along any eviction-free event
sequence. -/
theorem statsInv_run (fwdAddr : Addr) (events : List Event) :
    ∀ s : ServerState, statsInv s → tblWF s.table →
      noEviction fwdAddr s events = true →
      statsInv (run fwdAddr s events) ∧
        tblWF (run fwdAddr s events).table := by
  induction events with
  | nil => exact fun s hInv hWF _ => ⟨hInv, hWF⟩
  | cons e es ih =>
    intro s hInv hWF hnev
    rw [noEviction, Bool.and_eq_true] at hnev
    have hne : stepEvicts s e = false := by
      have := hnev.1
      revert this
      cases stepEvicts s e <;> simp
    obtain ⟨h1, h2⟩ := statsInv_step fwdAddr s e hInv hWF hne
    exact ih (step fwdAddr s e).1 h1 h2 hnev.2

/-- Claim C8, amended.  Starting from the initial state, after any event
sequence in which no query's freshly allocated proxy id lands on a still
occupied outbox slot (no eviction — evictions silently discard a counted
request, which is exactly what the counterexample exploits), the
statistics satisfy `requests = served + timeouts + number of requests in
the outbox table` at every quiescent point. -/
theorem claim_C8 (fwdAddr : Addr) (events : List Event)
    (h : noEviction fwdAddr initState events = true) :
    statsInv (run fwdAddr initState events) :=
  (statsInv_run fwdAddr events initState (by decide) List.nodup_nil h).1

/-- Witness for the amended claim C8 on a concrete eviction-free trace:
a reply from a wrong source followed by a sweep. -/
theorem claim_C8_witness :
    noEviction (8, 8) initState
        [Event.reply 0 (5, 5) [1, 2, 3], Event.sweep 7] = true ∧
      statsInv (run (8, 8) initState
        [Event.reply 0 (5, 5) [1, 2, 3], Event.sweep 7]) :=
  ⟨by decide,
    claim_C8 (8, 8) [Event.reply 0 (5, 5) [1, 2, 3], Event.sweep 7]
      (by decide)⟩

/-- Well-formed 19-byte DNS query used to drive the counterexample trace:
header with id 0, `rd` set, `qdcount` 1, question `a` of type A, class IN. -/
def wfq : List Nat := [0, 0, 1, 0, 0, 1, 0, 0, 0, 0, 0, 0, 1, 97, 0, 0, 1, 0, 1]

/-- Header decoded from `wfq`. -/
def wfqHeader : DNSHeader :=
  { id := 0, resp := false, opcode := 0, aa := false, tc := false, rd := true,
    ra := false, z := 0, rcode := 0, qdcount := 1, ancount := 0, nscount := 0,
    arcount := 0 }

/-- Decoding the QNAME bytes of `wfq`. -/
theorem decode_qname_a :
    DecodeAddrStr [1, 97, 0, 0, 1, 0, 1] = some ([97], [0, 1, 0, 1]) := by
  show decodeLoop [97].length ([97] ++ 0 :: [0, 1, 0, 1]) = _
  rw [decodeLoop_label [97] (by simp) 0 [0, 1, 0, 1]]
  have h0 : decodeLoop 0 [0, 1, 0, 1] = some ([], [0, 1, 0, 1]) := by
    rw [decodeLoop]
    rfl
  rw [h0]
  norm_num

/-- The counterexample query decodes successfully as a non-response. -/
theorem decodePacket_wfq : decodePacket wfq = some
    { header := wfqHeader, questionName := [97],
      question := { qtype := 1, qclass := 1 } } := by
  have hsub : DecodeAddrStr (wfq.drop 12) = some ([97], [0, 1, 0, 1]) :=
    decode_qname_a
  unfold decodePacket
  rw [hsub]
  decide

/-- Client address of the counterexample trace. -/
def cexAddr : Addr := (7, 7)

/-- Upstream address of the counterexample trace. -/
def cexFwd : Addr := (8, 8)

/-- The request stored for the `i`-th query of the counterexample trace. -/
def cexReq (i : Nat) : Request :=
  { mClientAddr := cexAddr, mClientPacketID := 0, mOurPacketID := i,
    mDomainName := [97], mRawPacket := setRawPacketID i wfq,
    mForwardedTime := 0 }

/-- Outbox table after `n` unanswered queries: slots `n, …, 1` occupied. -/
def cexTable (n : Nat) : Table :=
  (List.range n).reverse.map (fun j => (j + 1, cexReq (j + 1)))

/-- Outbox FIFO after `n` unanswered queries: ids `1, …, n` in order. -/
def cexFifo (n : Nat) : List Nat := (List.range n).map (fun j => j + 1)

/-- Statistics after `n` unanswered queries. -/
def cexStats (n : Nat) : Stats :=
  { packetsIn := n, packetsOut := n, requests := n, served := 0, timeOuts := 0 }

/-- Server state after `n` unanswered queries. -/
def cexState (n : Nat) : ServerState :=
  { gen := n, table := cexTable n, fifo := cexFifo n, stats := cexStats n }

/-- Below the wrap point the id generator just increments. -/
theorem genNext_small (n : Nat) (h : n ≤ 65533) : genNext n = n + 1 := by
  simp only [genNext, USHRT_MAX]
  rw [Nat.mod_eq_of_lt (by omega), if_neg (by omega)]

/-- Keys of the counterexample table are `n, …, 1`. -/
theorem tblKeys_cexTable (n : Nat) :
    tblKeys (cexTable n) = (List.range n).reverse.map (fun j => j + 1) := by
  simp [tblKeys, cexTable, List.map_map]

/-- One more query while the id space is not exhausted extends the
counterexample state by one fresh in-flight request. -/
theorem step_query_cex (n : Nat) (hn : n ≤ 65533) :
    (step cexFwd (cexState n) (Event.query 0 cexAddr wfq)).1 =
      cexState (n + 1) := by
  have hnotmem : (n + 1) ∉ tblKeys (cexTable n) := by
    rw [tblKeys_cexTable]
    simp
  simp only [step]
  rw [if_neg (by decide)]
  simp only [processHandleRequest, decodePacket_wfq]
  rw [if_neg (by decide)]
  simp only [OutboxAdd, cexState, cexStats]
  rw [genNext_small n hn]
  congr 1
  · show tblSet (cexTable n) (n + 1) (cexReq (n + 1)) = cexTable (n + 1)
    rw [tblSet, tblErase_of_not_mem _ _ hnotmem]
    rw [cexTable, cexTable, List.range_succ, List.reverse_append]
    simp
  · rw [cexFifo, cexFifo, List.range_succ]
    simp

/-- Running an event sequence splits along concatenation. -/
theorem run_append (fwdAddr : Addr) (es₁ es₂ : List Event) :
    ∀ s : ServerState, run fwdAddr s (es₁ ++ es₂) =
      run fwdAddr (run fwdAddr s es₁) es₂ := by
  induction es₁ with
  | nil => intro s; rfl
  | cons e es ih => intro s; rw [List.cons_append, run, run, ih]

/-- State after `n ≤ 65534` unanswered well-formed queries. -/
theorem run_cex (n : Nat) (hn : n ≤ 65534) :
    run cexFwd initState (List.replicate n (Event.query 0 cexAddr wfq)) =
      cexState n := by
  induction n with
  | zero => rfl
  | succ n ih =>
    rw [List.replicate_succ', run_append, ih (by omega),
      show run cexFwd (cexState n) [Event.query 0 cexAddr wfq] =
        (step cexFwd (cexState n) (Event.query 0 cexAddr wfq)).1 from rfl,
      step_query_cex n (by omega)]

/-- The counterexample table holds `n` requests. -/
theorem length_cexTable (n : Nat) : (cexTable n).length = n := by
  simp [cexTable]

/-- The counterexample table is well-formed. -/
theorem tblWF_cexTable (n : Nat) : tblWF (cexTable n) := by
  rw [tblWF, tblKeys_cexTable]
  refine List.Nodup.map (fun a b hab => by omega) ?_
  simp [List.nodup_range]

/-- A query whose freshly allocated id 1 collides with the still-pending
request 1 breaks the statistics balance: the evicted request is counted in
`requests` but neither served nor timed out nor stored any more. -/
theorem cex_evict (n : Nat) (hg : genNext n = 1)
    (hmem : 1 ∈ tblKeys (cexTable n)) :
    ¬ statsInv (step cexFwd (cexState n) (Event.query 0 cexAddr wfq)).1 := by
  simp only [step]
  rw [if_neg (by decide)]
  simp only [processHandleRequest, decodePacket_wfq]
  rw [if_neg (by decide)]
  simp only [OutboxAdd, cexState, cexStats]
  rw [hg]
  have hlen : (tblErase (cexTable n) 1).length + 1 = n := by
    rw [length_tblErase_of_mem _ _ (tblWF_cexTable n) hmem, length_cexTable]
  intro hcontra
  rw [statsInv] at hcontra
  simp only at hcontra
  rw [tblSet, List.length_cons, hlen] at hcontra
  omega

/-- Claim C8, counterexample.  65535 well-formed queries, none answered:
the 65535-th call of `GenerateUniqueID` wraps back to id 1, `OutboxAdd`
silently destroys the pending request in slot 1 without counting a timeout
(src/Server.cpp line 425), and afterwards `requests` = 65535 while
`served + timeouts + outbox size` = 0 + 0 + 65534 — the claimed balance is
false at this quiescent point of a well-formed-query trace. -/
theorem claim_C8_counterexample :
    ¬ statsInv (run cexFwd initState
      (List.replicate 65535 (Event.query 0 cexAddr wfq))) := by
  have hmem : 1 ∈ tblKeys (cexTable 65534) := by
    rw [tblKeys_cexTable]
    simp only [List.mem_map, List.mem_reverse, List.mem_range]
    exact ⟨0, by omega, rfl⟩
  have h := cex_evict 65534 (by decide) hmem
  have h65535 : (65535 : Nat) = 65534 + 1 := rfl
  rw [h65535, List.replicate_succ', run_append, run_cex 65534 (by omega)]
  exact h

end RelayDNS
